import Mathlib

/-!
Verification of `calculator.py`, a monadic parser-combinator calculator.

The embedding is shallow: the `Context` cursor class becomes a structure
over `List Char`; a parser is a function from `Context` to an explicit
outcome type `PResult`.  Python exceptions are modelled by outcome
constructors: `perr` is a raised `ParsingError` (message and cursor),
`exn` is any other escaping Python exception (`SyntaxError` from `eval`,
`ZeroDivisionError` from `/`), and `div` marks fuel exhaustion of the
model, corresponding to non-termination, unreachable for sufficient
fuel.  The generator-based do-notation of the source desugars to nested
`bind`, which is how it is written here.  Numeric values are modelled as
`ℚ` (Python ints and floats are identified by their numeric value; all
inputs in this development are exactly representable).
-/

/-- The whitespace characters stripped by Python `str.strip()`. -/
def isStripSpace (ch : Char) : Bool :=
  [' ', '\t', '\n', '\r', Char.ofNat 11, Char.ofNat 12].contains ch

/-- The whitespace set of the `space` parser: `x in " \t\n\r"`. -/
def isSpaceChar (ch : Char) : Bool :=
  [' ', '\t', '\n', '\r'].contains ch

/-- Python `s.strip()` on a list of characters. -/
def pyStrip (s : List Char) : List Char :=
  ((s.dropWhile isStripSpace).reverse.dropWhile isStripSpace).reverse

/-- The `Context` class: an immutable cursor into the input string. -/
structure Context where
  s : List Char
  pos : Nat
deriving DecidableEq

/-- The `Context(s, pos)` constructor: `__init__` strips the string. -/
def Context.mk' (s : List Char) (pos : Nat) : Context :=
  ⟨pyStrip s, pos⟩

/-- `Context.at`: the character at the current position, or `None` past
the end (`at` is a Lean keyword, hence the `?`-name). -/
def Context.at? (c : Context) : Option Char :=
  c.s[c.pos]?

/-- `Context.next`: a fresh cursor advanced by one (the constructor
re-strips the already-stripped string). -/
def Context.next (c : Context) : Context :=
  Context.mk' c.s (c.pos + 1)

/-- `Context.rest_str`: the unconsumed suffix of the input. -/
def Context.rest_str (c : Context) : List Char :=
  c.s.drop c.pos

/-- Outcome of running a parser: success, raised `ParsingError`, any
other raised Python exception, or out of fuel (non-termination). -/
inductive PResult (α : Type) where
  | ok (a : α) (c : Context)
  | perr (msg : String) (c : Context)
  | exn (msg : String)
  | div
deriving DecidableEq

def PResult.isOk : PResult α → Bool
  | .ok _ _ => true
  | _ => false

def PResult.isPerr : PResult α → Bool
  | .perr _ _ => true
  | _ => false

def PResult.isExn : PResult α → Bool
  | .exn _ => true
  | _ => false

def PResult.isDiv : PResult α → Bool
  | .div => true
  | _ => false

/-- `Context.pick`: the current character, raising
`ParsingError("Error", self)` at end of input. -/
def Context.pick (c : Context) : PResult Char :=
  match c.at? with
  | none => .perr "Error" c
  | some ch => .ok ch c

/-- A parser maps a cursor to an outcome. -/
def Parser (α : Type) : Type :=
  Context → PResult α

/-- `Parser.ret`: succeed with a value, consuming nothing. -/
def Parser.ret (a : α) : Parser α :=
  fun c => .ok a c

/-- `Parser.bind`: run `p`; on success feed the value to `g` and run the
resulting parser on the new cursor; failures propagate untouched. -/
def Parser.bind (p : Parser α) (g : α → Parser β) : Parser β :=
  fun c =>
    match p c with
    | .ok a c2 => g a c2
    | .perr m c2 => .perr m c2
    | .exn m => .exn m
    | .div => .div

/-- `Parser.__or__`: ordered choice.  Only a `ParsingError` from the
first parser is caught; the second then runs on the original cursor.
Any other exception, or success, passes straight through. -/
def Parser.orElse (p q : Parser α) : Parser α :=
  fun c =>
    match p c with
    | .perr _ _ => q c
    | r => r

/-- The `Sat` parser: `pick` one character, test the predicate, advance
on success, raise `ParsingError(f"Unexpected Char: {ch}", context)` on
predicate failure. -/
def Sat (pred : Char → Bool) : Parser Char :=
  fun c =>
    match c.pick with
    | .ok ch _ =>
        if pred ch then .ok ch c.next
        else .perr ("Unexpected Char: " ++ toString ch) c
    | .perr m c2 => .perr m c2
    | .exn m => .exn m
    | .div => .div

/-- The `Char` class (`PChar`: `Char` is taken by Lean, `CharP` by Mathlib). -/
def PChar (ch : Char) : Parser Char :=
  Sat (fun x => x == ch)

/-- The character loop of `String.parse`. -/
def stringGo (t : List Char) : Parser Unit :=
  match t with
  | [] => Parser.ret ()
  | ch :: rest => Parser.bind (PChar ch) (fun _ => stringGo rest)

/-- The `String` class: match a literal, character by character, and
return the literal itself. -/
def StringP (t : List Char) : Parser (List Char) :=
  Parser.bind (stringGo t) (fun _ => Parser.ret t)

mutual

/-- `many1(p)` (fueled): one repetition of `p`, then `Many(p)`. -/
def many1F (p : Parser α) : Nat → Parser (List α)
  | 0 => fun _ => .div
  | f + 1 =>
      Parser.bind p (fun x =>
        Parser.bind (ManyF p f) (fun xs => Parser.ret (x :: xs)))

/-- The `Many` class (fueled): `many1(p) | ret []`. -/
def ManyF (p : Parser α) : Nat → Parser (List α)
  | 0 => fun _ => .div
  | f + 1 => Parser.orElse (many1F p f) (Parser.ret [])
end

/-- The `space` parser: `Many(Sat(lambda x: x in " \t\n\r"))`. -/
def spaceF (f : Nat) : Parser (List Char) :=
  ManyF (Sat isSpaceChar) f

/-- `token(p)`: run `p`, consume trailing whitespace, return `p`'s
value. -/
def tokenF (p : Parser α) (f : Nat) : Parser α :=
  Parser.bind p (fun a => Parser.bind (spaceF f) (fun _ => Parser.ret a))

/-- The `Symb` class: `token(String(s))`. -/
def SymbF (t : List Char) (f : Nat) : Parser (List Char) :=
  tokenF (StringP t) f

/-- Python `a + b` on numbers: always succeeds. -/
def addFn (a b : ℚ) : Except String ℚ :=
  .ok (a + b)

/-- Python `a - b` on numbers: always succeeds. -/
def subFn (a b : ℚ) : Except String ℚ :=
  .ok (a - b)

/-- Python `a * b` on numbers: always succeeds. -/
def mulFn (a b : ℚ) : Except String ℚ :=
  .ok (a * b)

/-- Python `a / b`: raises `ZeroDivisionError` when `b == 0`. -/
def divFn (a b : ℚ) : Except String ℚ :=
  if b = 0 then .error "ZeroDivisionError" else .ok (a / b)

/-- `operator(pop, pn1, pn2)`: left operand, operator symbol, right
operand, then apply.  The application `op(n1, n2)` happens during the
parse; an exception it raises (division by zero) escapes as a
non-`ParsingError`. -/
def operator (pop : Parser (ℚ → ℚ → Except String ℚ))
    (pn1 pn2 : Parser ℚ) : Parser ℚ :=
  Parser.bind pn1 (fun n1 =>
    Parser.bind pop (fun op =>
      Parser.bind pn2 (fun n2 =>
        match op n1 n2 with
        | .ok v => Parser.ret v
        | .error m => fun _ => .exn m)))

/-- The `plus` alternative of `addop`: `Symb("+")` then the addition
function. -/
def plusPF (f : Nat) : Parser (ℚ → ℚ → Except String ℚ) :=
  Parser.bind (SymbF ['+'] f) (fun _ => Parser.ret addFn)

/-- The `minus` alternative of `addop`. -/
def minusPF (f : Nat) : Parser (ℚ → ℚ → Except String ℚ) :=
  Parser.bind (SymbF ['-'] f) (fun _ => Parser.ret subFn)

/-- `addop(pn1, pn2) = operator(plus | minus, pn1, pn2)`. -/
def addopF (f : Nat) (pn1 pn2 : Parser ℚ) : Parser ℚ :=
  operator (Parser.orElse (plusPF f) (minusPF f)) pn1 pn2

/-- The `times` alternative of `mulop`. -/
def timesPF (f : Nat) : Parser (ℚ → ℚ → Except String ℚ) :=
  Parser.bind (SymbF ['*'] f) (fun _ => Parser.ret mulFn)

/-- The `divide` alternative of `mulop`. -/
def dividePF (f : Nat) : Parser (ℚ → ℚ → Except String ℚ) :=
  Parser.bind (SymbF ['/'] f) (fun _ => Parser.ret divFn)

/-- `mulop(pn1, pn2) = operator(times | divide, pn1, pn2)`. -/
def mulopF (f : Nat) (pn1 pn2 : Parser ℚ) : Parser ℚ :=
  operator (Parser.orElse (timesPF f) (dividePF f)) pn1 pn2

/-- The character set of the `digits` rule: `z in "1234567890."`. -/
def numChars : List Char :=
  ['1', '2', '3', '4', '5', '6', '7', '8', '9', '0', '.']

def isNumChar (z : Char) : Bool :=
  numChars.contains z

/-- Decimal value of a digit list (most significant first). -/
def natOfDigits (l : List Char) : Nat :=
  l.foldl (fun acc ch => 10 * acc + (ch.toNat - 48)) 0

/-- Modelled from the host language: Python 3 `eval` applied to a token
whose characters are drawn from `"1234567890."`, as `digits` does.
`none` is a raised `SyntaxError`.  Per the Python grammar: a dot-free
token is a valid integer literal iff it is all zeros or has no leading
zero; a one-dot token is a valid float literal iff it has at least one
digit; two or more dots are invalid. -/
def pyEvalNum (l : List Char) : Option ℚ :=
  let dots := l.countP (fun ch => ch == '.')
  if dots = 0 then
    if l = [] then none
    else if l.all (fun ch => ch == '0') then some 0
    else if l.head? = some '0' then none
    else some (natOfDigits l)
  else if dots = 1 then
    let ip := l.takeWhile (fun ch => ch != '.')
    let fp := (l.dropWhile (fun ch => ch != '.')).tail
    if ip = [] ∧ fp = [] then none
    else some ((natOfDigits ip : ℚ) + (natOfDigits fp : ℚ) / ((10 : ℚ) ^ fp.length))
  else none

/-- The `digits` rule: `token(many1(Sat(z in "1234567890.")))`, the
collected characters joined and passed to `eval`. -/
def digitsF (f : Nat) : Parser ℚ :=
  fun c =>
    match tokenF (many1F (Sat isNumChar) f) f c with
    | .ok xs c2 =>
        match pyEvalNum xs with
        | some v => .ok v c2
        | none => .exn "SyntaxError"
    | .perr m c2 => .perr m c2
    | .exn m => .exn m
    | .div => .div

mutual

/-- `expr = addop(term, expr) | term` (fueled). -/
def exprF : Nat → Parser ℚ
  | 0 => fun _ => .div
  | f + 1 => Parser.orElse (addopF f (termF f) (exprF f)) (termF f)

/-- `term = mulop(factor, term) | factor` (fueled). -/
def termF : Nat → Parser ℚ
  | 0 => fun _ => .div
  | f + 1 => Parser.orElse (mulopF f (factorF f) (termF f)) (factorF f)

/-- `factor = digits | "(" expr ")"` (fueled); the parenthesis branch is
the local `m` of the source. -/
def factorF : Nat → Parser ℚ
  | 0 => fun _ => .div
  | f + 1 =>
      Parser.orElse (digitsF f)
        (Parser.bind (SymbF ['('] f) (fun _ =>
          Parser.bind (exprF f) (fun n =>
            Parser.bind (SymbF [')'] f) (fun _ => Parser.ret n))))

end

/-- Fuel sufficient for any parse of `s` (each grammar level and each
repetition step consume fuel; `2 * length + 8` covers a flat token and
every concrete input considered here). -/
def FUEL (s : List Char) : Nat :=
  2 * s.length + 8

/-- `expr.parse(Context(line))`, the parse the interactive loop runs. -/
def parseLine (s : List Char) : PResult ℚ :=
  exprF (FUEL s) (Context.mk' s 0)

def parseStr (s : String) : PResult ℚ :=
  parseLine s.toList

def strCtx (s : String) : Context :=
  Context.mk' s.toList 0

/-- The cursor sitting at the end of (an already stripped) `s`. -/
def endCtx (s : List Char) : Context :=
  ⟨s, s.length⟩

/-!  Theorems: the claims of the specification.  -/

/-- C2: the binary operators parse right-associatively:
`parse("10-3-2")` succeeds with value `9` (`10 - (3 - 2)`, not `5`) and
`parse("12/3/2")` succeeds with value `8` (`12 / (3 / 2)`, not `2`),
because the right operand of an addop/mulop is a full expr/term. -/
theorem c2_right_assoc :
    parseStr "10-3-2" = .ok 9 (endCtx "10-3-2".toList) ∧
    parseStr "12/3/2" = .ok 8 (endCtx "12/3/2".toList) := by
  with_unfolding_all decide

/-- C3: multiplication binds tighter than addition, and parentheses
override precedence and associativity: `parse("2+3*4") = 14`,
`parse("(2+3)*4") = 20`, `parse("(10-3)-2") = 5`. -/
theorem c3_precedence_parens :
    parseStr "2+3*4" = .ok 14 (endCtx "2+3*4".toList) ∧
    parseStr "(2+3)*4" = .ok 20 (endCtx "(2+3)*4".toList) ∧
    parseStr "(10-3)-2" = .ok 5 (endCtx "(10-3)-2".toList) := by
  with_unfolding_all decide

/-- C5: `parse("1/0")` parses the syntax but division by zero raises
`ZeroDivisionError`, an evaluation error distinct from a `ParsingError`
(`exn`, not `perr`), and the `or` combinator does not catch it: the
second alternative is never consulted. -/
theorem c5_div_zero_escapes :
    parseStr "1/0" = .exn "ZeroDivisionError" ∧
    (parseStr "1/0").isPerr = false ∧
    (∀ q : Parser ℚ,
      Parser.orElse (exprF (FUEL "1/0".toList)) q (strCtx "1/0") =
        .exn "ZeroDivisionError") := by
  have h : exprF (FUEL "1/0".toList) (strCtx "1/0") = .exn "ZeroDivisionError" := by
    with_unfolding_all decide
  refine ⟨h, ?_, ?_⟩
  · rw [show parseStr "1/0" = exprF (FUEL "1/0".toList) (strCtx "1/0") from rfl, h]
    rfl
  · intro q
    show Parser.orElse _ q _ = _
    unfold Parser.orElse
    rw [h]

/-- C6: extra input is distinguished from parse failure:
`parse("1+2)")` succeeds with value `3` and non-empty remainder `")"`,
whereas `parse("(1+2")` raises a `ParsingError` (so the remainder check
of `main` is never reached). -/
theorem c6_trailing_vs_failure :
    parseStr "1+2)" = .ok 3 ⟨"1+2)".toList, 3⟩ ∧
    Context.rest_str ⟨"1+2)".toList, 3⟩ = [')'] ∧
    Context.rest_str ⟨"1+2)".toList, 3⟩ ≠ [] ∧
    (parseStr "(1+2").isPerr = true ∧
    (parseStr "(1+2").isOk = false := by
  with_unfolding_all decide

/-- C10: an input accepted character-wise by the number rule but not a
valid numeral — here `"."`, also `"1..2"` — makes `digits` raise a
`SyntaxError` from `eval`.  It is not a `ParsingError`, so it escapes
the `or` combinator (the alternative is never consulted) and the
top-level parse neither succeeds nor reports a `ParsingError`. -/
theorem c10_bad_numeral_escapes :
    digitsF 8 (strCtx ".") = .exn "SyntaxError" ∧
    (digitsF 8 (strCtx ".")).isPerr = false ∧
    (∀ q : Parser ℚ,
      Parser.orElse (digitsF 8) q (strCtx ".") = .exn "SyntaxError") ∧
    parseStr "." = .exn "SyntaxError" ∧
    (parseStr ".").isOk = false ∧
    (parseStr ".").isPerr = false ∧
    parseStr "1..2" = .exn "SyntaxError" := by
  have h : digitsF 8 (strCtx ".") = .exn "SyntaxError" := by
    with_unfolding_all decide
  refine ⟨h, ?_, ?_, ?_, ?_, ?_, ?_⟩
  · rw [h]; rfl
  · intro q
    show Parser.orElse _ q _ = _
    unfold Parser.orElse
    rw [h]
  all_goals with_unfolding_all decide

/-- C4: ordered choice.  `or(a, b)` runs `a` on the original cursor; if
`a` succeeds its outcome is returned and `b` is irrelevant (never
attempted); if `a` raises a `ParsingError`, the result is exactly `b`
run on the same original cursor — so when `b` also fails, `b`'s failure
is the one surfaced, and `a`'s is discarded. -/
theorem c4_or_choice {α : Type} (a b : Parser α) (c : Context) :
    ((a c).isOk = true →
      Parser.orElse a b c = a c ∧ ∀ b2 : Parser α, Parser.orElse a b2 c = a c) ∧
    ((a c).isPerr = true → Parser.orElse a b c = b c) := by
  refine ⟨fun h => ⟨?_, fun b2 => ?_⟩, fun h => ?_⟩ <;>
    cases hres : a c <;>
      simp_all [Parser.orElse, PResult.isOk, PResult.isPerr]

/-- C4 witness: both hypotheses realised on concrete parsers. -/
theorem c4_or_choice_witness :
    ((Sat isNumChar (strCtx "7")).isOk = true ∧
      Parser.orElse (Sat isNumChar) (PChar 'x') (strCtx "7") =
        Sat isNumChar (strCtx "7")) ∧
    ((Sat isNumChar (strCtx "y")).isPerr = true ∧
      Parser.orElse (Sat isNumChar) (PChar 'x') (strCtx "y") =
        PChar 'x' (strCtx "y")) :=
  ⟨⟨by decide, ((c4_or_choice (Sat isNumChar) (PChar 'x') (strCtx "7")).1
      (by decide)).1⟩,
    ⟨by decide, (c4_or_choice (Sat isNumChar) (PChar 'x') (strCtx "y")).2
      (by decide)⟩⟩

/-- C7 counterexample: at end of input, `pick` (the spec's `require`)
raises `ParsingError("Error", cursor)` — the message is not
`"unexpected end of input"` as claimed. -/
theorem c7_require_message_cex :
    ("ab".toList.length ≤ 2) ∧
    Context.pick ⟨"ab".toList, 2⟩ = .perr "Error" ⟨"ab".toList, 2⟩ ∧
    Context.pick ⟨"ab".toList, 2⟩ ≠
      .perr "unexpected end of input" ⟨"ab".toList, 2⟩ := by
  decide

/-- C7 amended: for every cursor at or past the end of the input,
`pick` fails with a `ParsingError` whose message is `"Error"` and which
carries that very cursor. -/
theorem c7_require_fails_at_end (c : Context) (h : c.s.length ≤ c.pos) :
    Context.pick c = .perr "Error" c := by
  unfold Context.pick Context.at?
  rw [List.getElem?_eq_none h]

/-- C7 witness: the amended theorem at a concrete cursor. -/
theorem c7_require_fails_at_end_witness :
    ("xy".toList.length ≤ 5) ∧
    Context.pick ⟨"xy".toList, 5⟩ = .perr "Error" ⟨"xy".toList, 5⟩ :=
  ⟨by decide, c7_require_fails_at_end ⟨"xy".toList, 5⟩ (by decide)⟩

/-- A parser whose only failure mode is a `ParsingError`: it never lets
another exception escape and never diverges. -/
def OnlyPF {α : Type} (p : Parser α) : Prop :=
  ∀ c, (p c).isExn = false ∧ (p c).isDiv = false

/-- `pick` either returns a character or raises a `ParsingError`. -/
lemma pick_not_exn (c : Context) :
    (c.pick).isExn = false ∧ (c.pick).isDiv = false := by
  unfold Context.pick
  cases c.at? <;> exact ⟨rfl, rfl⟩

/-- `Sat` parsers only fail with `ParsingError`. -/
lemma sat_onlyPF (pred : Char → Bool) : OnlyPF (Sat pred) := by
  intro c
  unfold Sat
  cases h : c.pick with
  | ok ch c2 =>
    cases hp : pred ch <;> simp [hp, PResult.isExn, PResult.isDiv]
  | perr m c2 => exact ⟨rfl, rfl⟩
  | exn m =>
    have h1 := (pick_not_exn c).1
    rw [h] at h1
    exact absurd h1 (by simp [PResult.isExn])
  | div =>
    have h1 := (pick_not_exn c).2
    rw [h] at h1
    exact absurd h1 (by simp [PResult.isDiv])

/-- For such a `p`, `many1(p)` never raises a non-`ParsingError`, and
`Many(p)` raises nothing at all. -/
lemma many_no_escape {α : Type} (p : Parser α) (hp : OnlyPF p) :
    ∀ f, (∀ c, (many1F p f c).isExn = false) ∧
      (∀ c, (ManyF p f c).isExn = false ∧ (ManyF p f c).isPerr = false) := by
  intro f
  induction f with
  | zero =>
    refine ⟨fun c => rfl, fun c => ⟨rfl, rfl⟩⟩
  | succ f ih =>
    constructor
    · intro c
      show (Parser.bind p _ c).isExn = false
      unfold Parser.bind
      cases hpc : p c with
      | ok a c2 =>
        dsimp only
        show (Parser.bind (ManyF p f) _ c2).isExn = false
        unfold Parser.bind
        cases hm : ManyF p f c2 with
        | ok xs c3 => rfl
        | perr m c3 =>
          have h2 := (ih.2 c2).2
          rw [hm] at h2
          exact absurd h2 (by simp [PResult.isPerr])
        | exn m =>
          have h1 := (ih.2 c2).1
          rw [hm] at h1
          exact absurd h1 (by simp [PResult.isExn])
        | div => rfl
      | perr m c2 => rfl
      | exn m =>
        have h1 := (hp c).1
        rw [hpc] at h1
        exact absurd h1 (by simp [PResult.isExn])
      | div => rfl
    · intro c
      show (Parser.orElse (many1F p f) (Parser.ret []) c).isExn = false ∧
        (Parser.orElse (many1F p f) (Parser.ret []) c).isPerr = false
      unfold Parser.orElse
      cases hm : many1F p f c with
      | ok xs c3 => exact ⟨rfl, rfl⟩
      | perr m c3 => exact ⟨rfl, rfl⟩
      | exn m =>
        have h1 := ih.1 c
        rw [hm] at h1
        exact absurd h1 (by simp [PResult.isExn])
      | div => exact ⟨rfl, rfl⟩

/-- C8: for a parser `p` whose only failure mode is `ParsingError`,
`many(p)` never fails; when `many1(p)` fails, `many(p)` succeeds with
the empty list and the unchanged cursor; and `many1(p)` fails exactly
when the first application of `p` fails. -/
theorem c8_many_never_fails {α : Type} (p : Parser α) (hp : OnlyPF p) :
    (∀ f c, (ManyF p f c).isPerr = false) ∧
    (∀ f c m c2, many1F p f c = .perr m c2 → ManyF p (f + 1) c = .ok [] c) ∧
    (∀ f c, (many1F p (f + 1) c).isPerr = true ↔ (p c).isPerr = true) := by
  refine ⟨fun f c => ((many_no_escape p hp f).2 c).2, ?_, ?_⟩
  · intro f c m c2 h
    show Parser.orElse (many1F p f) (Parser.ret []) c = .ok [] c
    unfold Parser.orElse
    rw [h]
    rfl
  · intro f c
    constructor
    · intro h
      show (p c).isPerr = true
      by_contra hne
      revert h
      show ¬ (Parser.bind p _ c).isPerr = true
      unfold Parser.bind
      cases hpc : p c with
      | ok a c2 =>
        dsimp only
        show ¬ (Parser.bind (ManyF p f) _ c2).isPerr = true
        unfold Parser.bind
        cases hm : ManyF p f c2 with
        | ok xs c3 => simp [Parser.ret, PResult.isPerr]
        | perr m c3 =>
          have h2 := ((many_no_escape p hp f).2 c2).2
          rw [hm] at h2
          simp [PResult.isPerr] at h2
        | exn m => simp [PResult.isPerr]
        | div => simp [PResult.isPerr]
      | perr m c2 => exact absurd (by rw [hpc]; rfl) hne
      | exn m => simp [PResult.isPerr]
      | div => simp [PResult.isPerr]
    · intro h
      cases hpc : p c with
      | ok a c2 => rw [hpc] at h; exact absurd h (by simp [PResult.isPerr])
      | perr m c2 =>
        show (Parser.bind p _ c).isPerr = true
        unfold Parser.bind
        rw [hpc]
        rfl
      | exn m => rw [hpc] at h; exact absurd h (by simp [PResult.isPerr])
      | div => rw [hpc] at h; exact absurd h (by simp [PResult.isPerr])

/-- C8 witness: the theorem instantiated at the digit-or-dot `Sat`
parser, with every hypothesis realised concretely. -/
theorem c8_many_never_fails_witness :
    OnlyPF (Sat isNumChar) ∧
    (ManyF (Sat isNumChar) 6 (strCtx "12x")).isPerr = false ∧
    (many1F (Sat isNumChar) 2 (strCtx "x") =
      .perr "Unexpected Char: x" (strCtx "x") ∧
      ManyF (Sat isNumChar) 3 (strCtx "x") = .ok [] (strCtx "x")) ∧
    ((many1F (Sat isNumChar) 6 (strCtx "x")).isPerr = true ↔
      (Sat isNumChar (strCtx "x")).isPerr = true) :=
  ⟨sat_onlyPF isNumChar,
    (c8_many_never_fails (Sat isNumChar) (sat_onlyPF isNumChar)).1 6 (strCtx "12x"),
    ⟨by decide,
      (c8_many_never_fails (Sat isNumChar) (sat_onlyPF isNumChar)).2.1 2
        (strCtx "x") "Unexpected Char: x" (strCtx "x") (by decide)⟩,
    (c8_many_never_fails (Sat isNumChar) (sat_onlyPF isNumChar)).2.2 5 (strCtx "x")⟩

/-- A string the constructor's `strip` leaves unchanged (every cursor's
text is of this form, since `Context.__init__` strips). -/
def Stripped (s : List Char) : Prop :=
  pyStrip s = s

/-- The cursor invariant of the spec: stripped text and
`0 ≤ position ≤ length(text)` (the lower bound is inherent in `Nat`). -/
def GoodCtx (c : Context) : Prop :=
  Stripped c.s ∧ c.pos ≤ c.s.length

instance decStripped (s : List Char) : Decidable (Stripped s) :=
  inferInstanceAs (Decidable (pyStrip s = s))

instance decGoodCtx (c : Context) : Decidable (GoodCtx c) :=
  inferInstanceAs (Decidable (Stripped c.s ∧ c.pos ≤ c.s.length))

/-- A parser preserves the cursor invariant: from a good cursor, any
success returns a cursor with the *same* text, again within bounds.
Immutability itself is inherent in the embedding: parsers are functions
and never modify the input cursor. -/
def Preserves {α : Type} (p : Parser α) : Prop :=
  ∀ c a c2, GoodCtx c → p c = .ok a c2 → c2.s = c.s ∧ GoodCtx c2

lemma preserves_ret {α : Type} (a : α) : Preserves (Parser.ret a) := by
  intro c x c2 hg h
  unfold Parser.ret at h
  cases h
  exact ⟨rfl, hg⟩

lemma preserves_bind {α β : Type} (p : Parser α) (g : α → Parser β)
    (hp : Preserves p) (hg : ∀ x, Preserves (g x)) :
    Preserves (Parser.bind p g) := by
  intro c a c2 hgc h
  unfold Parser.bind at h
  cases hpc : p c with
  | ok x c3 =>
    rw [hpc] at h
    dsimp only at h
    obtain ⟨h1, h2⟩ := hp c x c3 hgc hpc
    obtain ⟨h3, h4⟩ := hg x c3 a c2 h2 h
    exact ⟨h3.trans h1, h4⟩
  | perr m c3 => rw [hpc] at h; simp at h
  | exn m => rw [hpc] at h; simp at h
  | div => rw [hpc] at h; simp at h

lemma preserves_orElse {α : Type} (p q : Parser α)
    (hp : Preserves p) (hq : Preserves q) :
    Preserves (Parser.orElse p q) := by
  intro c a c2 hg h
  unfold Parser.orElse at h
  cases hpc : p c with
  | ok x c3 =>
    rw [hpc] at h
    dsimp only at h
    cases h
    exact hp c a c2 hg hpc
  | perr m c3 =>
    rw [hpc] at h
    dsimp only at h
    exact hq c a c2 hg h
  | exn m => rw [hpc] at h; simp at h
  | div => rw [hpc] at h; simp at h

lemma preserves_sat (pred : Char → Bool) : Preserves (Sat pred) := by
  intro c a c2 hg h
  unfold Sat Context.pick at h
  cases hat : c.at? with
  | none => rw [hat] at h; simp at h
  | some ch =>
    rw [hat] at h
    dsimp only at h
    cases hp : pred ch with
    | false => rw [hp] at h; simp at h
    | true =>
      rw [hp] at h
      simp only [if_true] at h
      cases h
      have hlt : c.pos < c.s.length := by
        by_contra hge
        unfold Context.at? at hat
        rw [List.getElem?_eq_none (Nat.le_of_not_lt hge)] at hat
        exact absurd hat (by simp)
      have hs : (c.next).s = c.s := hg.1
      refine ⟨hs, ?_, ?_⟩
      · show Stripped (c.next).s
        rw [hs]
        exact hg.1
      · show (c.next).pos ≤ (c.next).s.length
        rw [hs]
        exact hlt

lemma preserves_pchar (ch : Char) : Preserves (PChar ch) :=
  preserves_sat _

lemma preserves_stringGo (t : List Char) : Preserves (stringGo t) := by
  induction t with
  | nil => exact preserves_ret ()
  | cons ch rest ih =>
    show Preserves (Parser.bind (PChar ch) (fun _ => stringGo rest))
    exact preserves_bind _ _ (preserves_pchar ch) (fun _ => ih)

lemma preserves_stringP (t : List Char) : Preserves (StringP t) :=
  preserves_bind _ _ (preserves_stringGo t) (fun _ => preserves_ret t)

lemma preserves_many {α : Type} (p : Parser α) (hp : Preserves p) :
    ∀ f, Preserves (many1F p f) ∧ Preserves (ManyF p f) := by
  intro f
  induction f with
  | zero =>
    constructor <;>
      · intro c a c2 hg h
        exact absurd h (by simp [many1F, ManyF])
  | succ f ih =>
    constructor
    · show Preserves (Parser.bind p fun x =>
        Parser.bind (ManyF p f) fun xs => Parser.ret (x :: xs))
      exact preserves_bind _ _ hp
        (fun x => preserves_bind _ _ ih.2 (fun xs => preserves_ret _))
    · show Preserves (Parser.orElse (many1F p f) (Parser.ret []))
      exact preserves_orElse _ _ ih.1 (preserves_ret [])

lemma preserves_space (f : Nat) : Preserves (spaceF f) :=
  (preserves_many _ (preserves_sat isSpaceChar) f).2

lemma preserves_token {α : Type} (p : Parser α) (f : Nat) (hp : Preserves p) :
    Preserves (tokenF p f) :=
  preserves_bind _ _ hp
    (fun a => preserves_bind _ _ (preserves_space f) (fun _ => preserves_ret a))

lemma preserves_symb (t : List Char) (f : Nat) : Preserves (SymbF t f) :=
  preserves_token _ _ (preserves_stringP t)

lemma preserves_opApply (op : ℚ → ℚ → Except String ℚ) (n1 n2 : ℚ) :
    Preserves (match op n1 n2 with
      | .ok v => Parser.ret v
      | .error m => fun _ => PResult.exn m) := by
  cases op n1 n2 with
  | ok v => exact preserves_ret v
  | error m =>
    intro c a c2 hg h
    exact absurd h (by simp)

lemma preserves_operator (pop : Parser (ℚ → ℚ → Except String ℚ))
    (pn1 pn2 : Parser ℚ) (h1 : Preserves pop) (h2 : Preserves pn1)
    (h3 : Preserves pn2) : Preserves (operator pop pn1 pn2) := by
  show Preserves (Parser.bind pn1 fun n1 => Parser.bind pop fun op =>
    Parser.bind pn2 fun n2 => match op n1 n2 with
      | .ok v => Parser.ret v
      | .error m => fun _ => PResult.exn m)
  exact preserves_bind _ _ h2 (fun n1 => preserves_bind _ _ h1
    (fun op => preserves_bind _ _ h3 (fun n2 => preserves_opApply op n1 n2)))

lemma preserves_addop (f : Nat) (pn1 pn2 : Parser ℚ)
    (h1 : Preserves pn1) (h2 : Preserves pn2) :
    Preserves (addopF f pn1 pn2) :=
  preserves_operator _ _ _
    (preserves_orElse _ _
      (preserves_bind _ _ (preserves_symb _ _) (fun _ => preserves_ret _))
      (preserves_bind _ _ (preserves_symb _ _) (fun _ => preserves_ret _)))
    h1 h2

lemma preserves_mulop (f : Nat) (pn1 pn2 : Parser ℚ)
    (h1 : Preserves pn1) (h2 : Preserves pn2) :
    Preserves (mulopF f pn1 pn2) :=
  preserves_operator _ _ _
    (preserves_orElse _ _
      (preserves_bind _ _ (preserves_symb _ _) (fun _ => preserves_ret _))
      (preserves_bind _ _ (preserves_symb _ _) (fun _ => preserves_ret _)))
    h1 h2

lemma preserves_digits (f : Nat) : Preserves (digitsF f) := by
  intro c a c2 hg h
  unfold digitsF at h
  cases ht : tokenF (many1F (Sat isNumChar) f) f c with
  | ok xs c3 =>
    rw [ht] at h
    dsimp only at h
    cases he : pyEvalNum xs with
    | some v =>
      rw [he] at h
      dsimp only at h
      cases h
      exact preserves_token _ _ (preserves_many _ (preserves_sat _) f).1 c xs c2 hg ht
    | none => rw [he] at h; simp at h
  | perr m c3 => rw [ht] at h; simp at h
  | exn m => rw [ht] at h; simp at h
  | div => rw [ht] at h; simp at h

lemma preserves_grammar :
    ∀ f, Preserves (factorF f) ∧ Preserves (termF f) ∧ Preserves (exprF f) := by
  intro f
  induction f with
  | zero =>
    refine ⟨?_, ?_, ?_⟩ <;>
      · intro c a c2 hg h
        exact absurd h (by simp [factorF, termF, exprF])
  | succ f ih =>
    obtain ⟨hf, ht, he⟩ := ih
    have hf2 : Preserves (factorF (f + 1)) := by
      show Preserves (Parser.orElse (digitsF f)
        (Parser.bind (SymbF ['('] f) fun _ =>
          Parser.bind (exprF f) fun n =>
            Parser.bind (SymbF [')'] f) fun _ => Parser.ret n))
      exact preserves_orElse _ _ (preserves_digits f)
        (preserves_bind _ _ (preserves_symb _ _) (fun _ =>
          preserves_bind _ _ he (fun n =>
            preserves_bind _ _ (preserves_symb _ _) (fun _ => preserves_ret n))))
    have ht2 : Preserves (termF (f + 1)) := by
      show Preserves (Parser.orElse (mulopF f (factorF f) (termF f)) (factorF f))
      exact preserves_orElse _ _ (preserves_mulop f _ _ hf ht) hf
    have he2 : Preserves (exprF (f + 1)) := by
      show Preserves (Parser.orElse (addopF f (termF f) (exprF f)) (termF f))
      exact preserves_orElse _ _ (preserves_addop f _ _ ht he) ht
    exact ⟨hf2, ht2, he2⟩

/-- C9: every parser of the grammar — `Sat`, `Char`, `String`, `or`,
`bind`, `many`/`many1`, `token`, `digits`, `factor`, `term`, `expr` —
maps a cursor satisfying `0 ≤ position ≤ length(text)` (with stripped
text, as all cursors of a run have) to a success cursor with the same
text and position again within bounds; and advancing never mutates: it
builds a new cursor at `position + 1`. -/
theorem c9_cursor_invariant :
    (∀ pred, Preserves (Sat pred)) ∧
    (∀ ch, Preserves (PChar ch)) ∧
    (∀ t, Preserves (StringP t)) ∧
    (∀ (α : Type) (a b : Parser α), Preserves a → Preserves b →
      Preserves (Parser.orElse a b)) ∧
    (∀ (α β : Type) (p : Parser α) (g : α → Parser β), Preserves p →
      (∀ x, Preserves (g x)) → Preserves (Parser.bind p g)) ∧
    (∀ (α : Type) (p : Parser α), Preserves p →
      ∀ f, Preserves (many1F p f) ∧ Preserves (ManyF p f)) ∧
    (∀ (α : Type) (p : Parser α) (f : Nat), Preserves p →
      Preserves (tokenF p f)) ∧
    (∀ f, Preserves (digitsF f)) ∧
    (∀ f, Preserves (factorF f) ∧ Preserves (termF f) ∧ Preserves (exprF f)) ∧
    (∀ c : Context, (c.next).pos = c.pos + 1 ∧
      (Stripped c.s → (c.next).s = c.s)) :=
  ⟨preserves_sat, preserves_pchar, preserves_stringP,
    fun _ a b ha hb => preserves_orElse a b ha hb,
    fun _ _ p g hp hg => preserves_bind p g hp hg,
    fun _ p hp => preserves_many p hp,
    fun _ p f hp => preserves_token p f hp,
    preserves_digits, preserves_grammar,
    fun _ => ⟨rfl, fun hs => hs⟩⟩

/-- C9 witness: the `Sat` clause of the invariant at a concrete run. -/
theorem c9_cursor_invariant_witness :
    GoodCtx (strCtx "1") ∧
    Sat isNumChar (strCtx "1") = .ok '1' ⟨['1'], 1⟩ ∧
    ((⟨['1'], 1⟩ : Context).s = (strCtx "1").s ∧ GoodCtx ⟨['1'], 1⟩) :=
  ⟨by decide, by decide,
    c9_cursor_invariant.1 isNumChar (strCtx "1") '1' ⟨['1'], 1⟩
      (by decide) (by decide)⟩

lemma dropWhile_all_false {p : Char → Bool} {l : List Char}
    (h : ∀ ch ∈ l, p ch = false) : l.dropWhile p = l := by
  cases l with
  | nil => rfl
  | cons a t =>
    rw [List.dropWhile_cons, h a (List.mem_cons_self a t)]
    simp

lemma pyStrip_all_not_space {s : List Char}
    (h : ∀ ch ∈ s, isStripSpace ch = false) : pyStrip s = s := by
  unfold pyStrip
  rw [dropWhile_all_false h,
    dropWhile_all_false (fun ch hm => h ch (List.mem_reverse.mp hm)),
    List.reverse_reverse]

lemma num_not_space (ch : Char) (h : isNumChar ch = true) :
    isStripSpace ch = false := by
  unfold isNumChar at h
  have hm : ch ∈ numChars := List.mem_of_elem_eq_true h
  fin_cases hm <;> rfl

/-- `Sat` fails with `ParsingError("Error", c)` at the end of the
input. -/
lemma sat_at_end (pred : Char → Bool) (c : Context)
    (hpos : c.s.length ≤ c.pos) : Sat pred c = .perr "Error" c := by
  unfold Sat Context.pick Context.at?
  rw [List.getElem?_eq_none hpos]

/-- `Sat` consumes the current character when the predicate holds. -/
lemma sat_step (pred : Char → Bool) (c : Context) (hlt : c.pos < c.s.length)
    (hp : pred c.s[c.pos] = true) :
    Sat pred c = .ok c.s[c.pos] c.next := by
  unfold Sat Context.pick Context.at?
  rw [List.getElem?_eq_some.mpr ⟨hlt, rfl⟩]
  dsimp only
  rw [hp]
  simp

/-- On a cursor whose entire unread suffix is number characters,
`many1`/`Many` of the digit-or-dot `Sat` consume the whole suffix and
stop at the end of the input, given enough fuel. -/
lemma many_num_run :
    ∀ f c, Stripped c.s → c.pos ≤ c.s.length →
      (∀ ch ∈ c.rest_str, isNumChar ch = true) →
      (2 * c.rest_str.length + 1 ≤ f → c.rest_str ≠ [] →
        many1F (Sat isNumChar) f c = .ok c.rest_str (endCtx c.s)) ∧
      (2 * c.rest_str.length + 2 ≤ f →
        ManyF (Sat isNumChar) f c = .ok c.rest_str (endCtx c.s)) := by
  intro f
  induction f with
  | zero =>
    intro c h1 h2 h3
    exact ⟨fun hf => absurd hf (by omega), fun hf => absurd hf (by omega)⟩
  | succ f ih =>
    intro c h1 h2 h3
    constructor
    · intro hf hne
      have hlt : c.pos < c.s.length := by
        by_contra hge
        exact hne (List.drop_eq_nil_iff.mpr (Nat.le_of_not_lt hge))
      have hdrop : c.rest_str = c.s[c.pos] :: c.s.drop (c.pos + 1) :=
        List.drop_eq_getElem_cons hlt
      have hch : isNumChar c.s[c.pos] = true :=
        h3 _ (by rw [hdrop]; exact List.mem_cons_self _ _)
      have hsat := sat_step isNumChar c hlt hch
      have hnext : c.next = ⟨c.s, c.pos + 1⟩ := by
        unfold Context.next Context.mk'
        rw [show pyStrip c.s = c.s from h1]
      have hrest2 : (⟨c.s, c.pos + 1⟩ : Context).rest_str = c.s.drop (c.pos + 1) := rfl
      have hlen : c.rest_str.length = (c.s.drop (c.pos + 1)).length + 1 := by
        rw [hdrop]; rfl
      have hIH : ManyF (Sat isNumChar) f ⟨c.s, c.pos + 1⟩ =
          .ok (c.s.drop (c.pos + 1)) (endCtx c.s) := by
        have := (ih ⟨c.s, c.pos + 1⟩ h1 hlt
          (fun ch hm => h3 ch (by rw [hdrop]; exact List.mem_cons_of_mem _ hm))).2
        rw [hrest2] at this
        exact this (by omega)
      rw [many1F]
      unfold Parser.bind
      rw [hsat]
      dsimp only
      rw [hnext, hIH]
      dsimp only
      unfold Parser.ret
      rw [hdrop]
    · intro hf
      by_cases hne : c.rest_str = []
      · have hpos : c.s.length ≤ c.pos := List.drop_eq_nil_iff.mp hne
        have hposx : c.pos = c.s.length := Nat.le_antisymm h2 hpos
        obtain ⟨f2, rfl⟩ : ∃ f2, f = f2 + 1 := ⟨f - 1, by omega⟩
        have h1f : many1F (Sat isNumChar) (f2 + 1) c = .perr "Error" c := by
          rw [many1F]
          unfold Parser.bind
          rw [sat_at_end isNumChar c hpos]
        rw [ManyF]
        unfold Parser.orElse
        rw [h1f]
        dsimp only
        unfold Parser.ret
        rw [hne]
        have : c = endCtx c.s := by
          cases c with
          | mk s p => simp only [endCtx]; rw [show p = s.length from hposx]
        exact congrArg (PResult.ok []) this
      · rw [ManyF]
        unfold Parser.orElse
        rw [(ih c h1 h2 h3).1 (by omega) hne]

/-- `space` consumes nothing at the end of the input. -/
lemma space_at_end (f : Nat) (c : Context) (hf : 2 ≤ f)
    (hpos : c.s.length ≤ c.pos) : spaceF f c = .ok [] c := by
  obtain ⟨f2, rfl⟩ : ∃ f2, f = f2 + 1 + 1 := ⟨f - 2, by omega⟩
  unfold spaceF
  have h1f : many1F (Sat isSpaceChar) (f2 + 1) c = .perr "Error" c := by
    rw [many1F]
    unfold Parser.bind
    rw [sat_at_end isSpaceChar c hpos]
  rw [ManyF]
  unfold Parser.orElse
  rw [h1f]
  rfl

/-- Any `Symb` of a non-empty literal fails with
`ParsingError("Error", c)` at the end of the input. -/
lemma symb_at_end (ch : Char) (t : List Char) (f : Nat) (c : Context)
    (hpos : c.s.length ≤ c.pos) : SymbF (ch :: t) f c = .perr "Error" c := by
  unfold SymbF tokenF StringP stringGo PChar Parser.bind
  rw [sat_at_end _ c hpos]

/-- The `plus | minus` operator parser fails with
`ParsingError("Error", c)` at the end of the input. -/
lemma addpop_at_end (f : Nat) (c : Context) (hpos : c.s.length ≤ c.pos) :
    Parser.orElse (plusPF f) (minusPF f) c = .perr "Error" c := by
  have h2 : minusPF f c = .perr "Error" c := by
    unfold minusPF Parser.bind
    rw [symb_at_end '-' [] f c hpos]
  have h1 : plusPF f c = .perr "Error" c := by
    unfold plusPF Parser.bind
    rw [symb_at_end '+' [] f c hpos]
  unfold Parser.orElse
  rw [h1]
  exact h2

/-- The `times | divide` operator parser fails with
`ParsingError("Error", c)` at the end of the input. -/
lemma mulpop_at_end (f : Nat) (c : Context) (hpos : c.s.length ≤ c.pos) :
    Parser.orElse (timesPF f) (dividePF f) c = .perr "Error" c := by
  have h2 : dividePF f c = .perr "Error" c := by
    unfold dividePF Parser.bind
    rw [symb_at_end '/' [] f c hpos]
  have h1 : timesPF f c = .perr "Error" c := by
    unfold timesPF Parser.bind
    rw [symb_at_end '*' [] f c hpos]
  unfold Parser.orElse
  rw [h1]
  exact h2

/-- If the left operand parses but the operator symbol then fails with a
`ParsingError`, the whole `operator` fails with that `ParsingError`. -/
lemma operator_fail_after (pop : Parser (ℚ → ℚ → Except String ℚ))
    (pn1 pn2 : Parser ℚ) (c e : Context) (v : ℚ) (m : String)
    (hpn1 : pn1 c = .ok v e) (hpop : pop e = .perr m e) :
    operator pop pn1 pn2 c = .perr m e := by
  unfold operator Parser.bind
  rw [hpn1]
  dsimp only
  rw [hpop]

/-- `digits` on a cursor whose unread suffix is a whole valid numeral
token: consumes everything, evaluates it. -/
lemma digits_num_run (f : Nat) (c : Context) (h1 : Stripped c.s)
    (h2 : c.pos ≤ c.s.length) (h3 : ∀ ch ∈ c.rest_str, isNumChar ch = true)
    (hne : c.rest_str ≠ []) (hf : 2 * c.rest_str.length + 1 ≤ f)
    (v : ℚ) (hv : pyEvalNum c.rest_str = some v) :
    digitsF f c = .ok v (endCtx c.s) := by
  have hm1 := (many_num_run f c h1 h2 h3).1 hf hne
  have hlen : 1 ≤ c.rest_str.length := by
    cases hr : c.rest_str with
    | nil => exact absurd hr hne
    | cons a t => simp
  have hsp : spaceF f (endCtx c.s) = .ok [] (endCtx c.s) :=
    space_at_end f _ (by omega) (by simp [endCtx])
  have htok : tokenF (many1F (Sat isNumChar) f) f c =
      .ok c.rest_str (endCtx c.s) := by
    unfold tokenF Parser.bind
    rw [hm1]
    dsimp only
    rw [hsp]
    rfl
  unfold digitsF
  rw [htok]
  dsimp only
  rw [hv]

/-- `factor` on a pure numeral suffix: the `digits` branch wins. -/
lemma factor_num_run (f : Nat) (c : Context) (h1 : Stripped c.s)
    (h2 : c.pos ≤ c.s.length) (h3 : ∀ ch ∈ c.rest_str, isNumChar ch = true)
    (hne : c.rest_str ≠ []) (hf : 2 * c.rest_str.length + 2 ≤ f)
    (v : ℚ) (hv : pyEvalNum c.rest_str = some v) :
    factorF f c = .ok v (endCtx c.s) := by
  obtain ⟨f2, rfl⟩ : ∃ f2, f = f2 + 1 := ⟨f - 1, by omega⟩
  rw [factorF]
  unfold Parser.orElse
  rw [digits_num_run f2 c h1 h2 h3 hne (by omega) v hv]

/-- `term` on a pure numeral suffix: `factor` consumes everything, the
`mulop` branch fails at the end, the plain `factor` branch wins. -/
lemma term_num_run (f : Nat) (c : Context) (h1 : Stripped c.s)
    (h2 : c.pos ≤ c.s.length) (h3 : ∀ ch ∈ c.rest_str, isNumChar ch = true)
    (hne : c.rest_str ≠ []) (hf : 2 * c.rest_str.length + 3 ≤ f)
    (v : ℚ) (hv : pyEvalNum c.rest_str = some v) :
    termF f c = .ok v (endCtx c.s) := by
  obtain ⟨f2, rfl⟩ : ∃ f2, f = f2 + 1 := ⟨f - 1, by omega⟩
  have hfac := factor_num_run f2 c h1 h2 h3 hne (by omega) v hv
  have hpop := mulpop_at_end f2 (endCtx c.s) (by simp [endCtx])
  have hmul : mulopF f2 (factorF f2) (termF f2) c =
      .perr "Error" (endCtx c.s) := by
    unfold mulopF
    exact operator_fail_after _ _ _ c (endCtx c.s) v "Error" hfac hpop
  rw [termF]
  unfold Parser.orElse
  rw [hmul]
  dsimp only
  exact hfac

/-- `expr` on a pure numeral suffix. -/
lemma expr_num_run (f : Nat) (c : Context) (h1 : Stripped c.s)
    (h2 : c.pos ≤ c.s.length) (h3 : ∀ ch ∈ c.rest_str, isNumChar ch = true)
    (hne : c.rest_str ≠ []) (hf : 2 * c.rest_str.length + 4 ≤ f)
    (v : ℚ) (hv : pyEvalNum c.rest_str = some v) :
    exprF f c = .ok v (endCtx c.s) := by
  obtain ⟨f2, rfl⟩ : ∃ f2, f = f2 + 1 := ⟨f - 1, by omega⟩
  have hterm := term_num_run f2 c h1 h2 h3 hne (by omega) v hv
  have hpop := addpop_at_end f2 (endCtx c.s) (by simp [endCtx])
  have hadd : addopF f2 (termF f2) (exprF f2) c =
      .perr "Error" (endCtx c.s) := by
    unfold addopF
    exact operator_fail_after _ _ _ c (endCtx c.s) v "Error" hterm hpop
  rw [exprF]
  unfold Parser.orElse
  rw [hadd]
  dsimp only
  exact hterm

/-- C1 counterexample: `"07"` is a sequence of digits (no dot), yet
`parse("07")` does not succeed — `eval("07")` is a `SyntaxError` in
Python 3 (leading zeros are not permitted in decimal integer literals),
which escapes the parser. -/
theorem c1_digit_seq_cex :
    (['0', '7'].all isNumChar = true) ∧
    (['0', '7'].countP (fun ch => ch == '.') = 0) ∧
    parseStr "07" = .exn "SyntaxError" ∧
    (parseStr "07").isOk = false := by
  refine ⟨by decide, by decide, ?_, ?_⟩ <;> with_unfolding_all decide

/-- C1 amended: for every input string over the digit-or-dot alphabet
that is a valid Python numeral (at least one digit, at most one dot, and
no superfluous leading zero in the dot-free integer form — the condition
under which `eval` accepts the token), `parse` succeeds, its value is
the numeric value of the string, and the remainder is empty. -/
theorem c1_numeral_parses (s : List Char) (v : ℚ)
    (hnum : ∀ ch ∈ s, isNumChar ch = true)
    (hv : pyEvalNum s = some v) :
    parseLine s = .ok v (endCtx s) ∧ (endCtx s).rest_str = [] := by
  have hne : s ≠ [] := by
    intro h
    subst h
    simp [pyEvalNum] at hv
  have hstrip : pyStrip s = s :=
    pyStrip_all_not_space (fun ch hm => num_not_space ch (hnum ch hm))
  have hctx : Context.mk' s 0 = ⟨s, 0⟩ := by
    unfold Context.mk'
    rw [hstrip]
  have hrest : (⟨s, 0⟩ : Context).rest_str = s := by
    simp [Context.rest_str]
  constructor
  · unfold parseLine
    rw [hctx]
    have := expr_num_run (FUEL s) ⟨s, 0⟩ hstrip (Nat.zero_le _)
      (by rw [hrest]; exact hnum)
      (by rw [hrest]; exact hne)
      (by rw [hrest]; unfold FUEL; omega)
      v (by rw [hrest]; exact hv)
    exact this
  · simp [endCtx, Context.rest_str]

/-- C1 witness: the amended theorem at `"42"`, giving
`parse("42") = (42, "")`. -/
theorem c1_numeral_parses_witness :
    (∀ ch ∈ "42".toList, isNumChar ch = true) ∧
    pyEvalNum "42".toList = some 42 ∧
    (parseLine "42".toList = .ok 42 (endCtx "42".toList) ∧
      (endCtx "42".toList).rest_str = []) :=
  ⟨by decide, by with_unfolding_all decide,
    c1_numeral_parses "42".toList 42 (by decide)
      (by with_unfolding_all decide)⟩
